import Mathlib

/-!
# tcp-server: rate limiter, command executor and connection handler

A shallow embedding of `pkg/ratelimit/ipratelimit.go`, `pkg/executor/command.go`
and `internal/server/server.go`, followed by the properties proved about them.

Conventions of the embedding:
* a clock reading (`time.Time`) is an integer number of nanoseconds, a
  `time.Duration` is an integer number of nanoseconds;
* every call of `time.Now()` in the source is an explicit clock-reading argument;
* a Go map is a lookup function into `Option`;
* a Go slice that may be `nil` is an `Option (List _)`, `none` being `nil`;
* a Go panic is the `Except.error` branch of the result.
-/

namespace TcpServer

/-! ## Time -/

/-- A reading of the clock, in nanoseconds. -/
abbrev Time := Int

/-- Go `time.Duration`: a signed 64-bit count of nanoseconds. -/
abbrev Duration := Int

/-- Smallest `time.Duration`. -/
def minDuration : Duration := -9223372036854775808

/-- Largest `time.Duration`. -/
def maxDuration : Duration := 9223372036854775807

/-- Go `Time.Sub`: the duration `t - u`, saturated at the ends of the
`time.Duration` range. -/
def Time.Sub (t u : Time) : Duration :=
  if t - u < minDuration then minDuration
  else if maxDuration < t - u then maxDuration
  else t - u

/-! ## pkg/ratelimit/ipratelimit.go -/

namespace ratelimit

/-- Go `type IP struct`: the admissions counted in the current window and the
instant the window was opened. -/
structure IP where
  Count : Int
  LastReset : Time
deriving DecidableEq, Repr

/-- Go `type IPRateLimiter struct` (the mutex is left out: every operation runs
under the exclusive lock, so operations are atomic steps on this state). -/
structure IPRateLimiter where
  ips : String → Option IP
  limit : Int
  interval : Duration

/-- The map store `m[ip] = e`. -/
def store (m : String → Option IP) (ip : String) (e : IP) : String → Option IP :=
  fun k => if k = ip then some e else m k

/-- Go `NewIPRateLimiter`: only `limit` is validated. -/
def NewIPRateLimiter (limit : Int) (interval : Duration) : Except String IPRateLimiter :=
  if limit < 1 then
    Except.error ("limit cannot be " ++ toString limit)
  else
    Except.ok { ips := fun _ => none, limit := limit, interval := interval }

/-- Go `(*IPRateLimiter).Allow`, with `now` the reading of `time.Now()`.
Returns the verdict and the limiter after the call.  `entry.Count++` is reached
only with `entry.Count < rl.limit`, so it cannot overflow a Go `int`. -/
def IPRateLimiter.Allow (rl : IPRateLimiter) (now : Time) (ip : String) :
    Bool × IPRateLimiter :=
  match rl.ips ip with
  | none => (true, { rl with ips := store rl.ips ip { Count := 1, LastReset := now } })
  | some entry =>
    if Time.Sub now entry.LastReset > rl.interval then
      (true, { rl with ips := store rl.ips ip { Count := 1, LastReset := now } })
    else if entry.Count ≥ rl.limit then
      (false, rl)
    else
      (true, { rl with ips := store rl.ips ip { entry with Count := entry.Count + 1 } })

/-- Go `(*IPRateLimiter).Clean`.  The loop evaluates `time.Since(entry.LastReset)`
once per visited entry, so the clock is read once per entry: `clock ip` is the
reading taken when the entry of `ip` is visited.  Deleting the visited key while
ranging over a Go map is safe and every entry is visited exactly once. -/
def IPRateLimiter.Clean (rl : IPRateLimiter) (clock : String → Time) : IPRateLimiter :=
  { rl with ips := fun ip =>
      match rl.ips ip with
      | none => none
      | some entry =>
        if Time.Sub (clock ip) entry.LastReset > rl.interval then none else some entry }

/-- Consecutive `Allow(ip)` calls, one per clock reading of `ts`: the verdicts in
call order and the limiter after the last call. -/
def allowAll (rl : IPRateLimiter) (ip : String) : List Time → List Bool × IPRateLimiter
  | [] => ([], rl)
  | t :: ts =>
    let r := rl.Allow t ip
    let rest := allowAll r.2 ip ts
    (r.1 :: rest.1, rest.2)

/-- One call on the limiter: `Allow(ip)` with the reading of `time.Now()`, or
`Clean()` with the reading taken at each visited entry. -/
inductive Call where
  | Allow (now : Time) (ip : String)
  | Clean (clock : String → Time)

/-- The limiter after one call. -/
def IPRateLimiter.step (rl : IPRateLimiter) : Call → IPRateLimiter
  | Call.Allow now ip => (rl.Allow now ip).2
  | Call.Clean clock => rl.Clean clock

/-- The limiter after a sequence of calls, first call first. -/
def IPRateLimiter.run (rl : IPRateLimiter) : List Call → IPRateLimiter
  | [] => rl
  | c :: cs => (rl.step c).run cs

/-- The limiter after a sequence of `Allow` calls, each given by its clock
reading and its source, first call first. -/
def allowEach (rl : IPRateLimiter) : List (Time × String) → IPRateLimiter
  | [] => rl
  | c :: cs => allowEach (rl.Allow c.1 c.2).2 cs

/-- The number of calls of a sequence of `Allow` calls that are for the source
`s`, are admitted, and have their clock reading in the span from `lo` to `hi`
(both ends included). -/
def admittedIn (s : String) (lo hi : Time) (rl : IPRateLimiter) :
    List (Time × String) → Nat
  | [] => 0
  | c :: cs =>
    (if c.2 = s ∧ (rl.Allow c.1 c.2).1 = true ∧ lo ≤ c.1 ∧ c.1 ≤ hi then 1 else 0)
      + admittedIn s lo hi (rl.Allow c.1 c.2).2 cs

/-- An upper bound on the admissions of `s` still to come inside a span that
starts at `lo`, once the clock has reached `lo`: what is left of the current
window, and a whole further window if the current one was opened before `lo`. -/
def spanBudget (rl : IPRateLimiter) (s : String) (lo : Time) : Int :=
  match rl.ips s with
  | none => rl.limit
  | some e =>
    if lo ≤ e.LastReset then max 0 (rl.limit - e.Count)
    else max 0 (rl.limit - e.Count) + rl.limit

end ratelimit

/-! ## context -/

namespace context

/-- The two non-nil values `ctx.Err()` can take: `context.Canceled` and
`context.DeadlineExceeded`. -/
inductive Error where
  | Canceled
  | DeadlineExceeded
deriving DecidableEq, Repr

/-- A `context.Context` as the handler builds it: the ambient, server-level
scope, which is cancelled at `cancelAt` (`none`: it is never cancelled), with the
timeout scopes derived from it; `deadline` is the earliest of their deadlines
(`none`: no timeout scope was derived). -/
structure Context where
  cancelAt : Option Time
  deadline : Option Time
deriving DecidableEq, Repr

/-- Go `ctx.Err()` consulted at clock reading `now`: `nil` while neither the
ambient scope nor a deadline has fired, otherwise the error of whichever fired
first (the ambient cancellation when both fire at the same instant). -/
def Context.Err (ctx : Context) (now : Time) : Option Error :=
  match ctx.cancelAt, ctx.deadline with
  | none, none => none
  | some c, none => if c ≤ now then some Error.Canceled else none
  | none, some d => if d ≤ now then some Error.DeadlineExceeded else none
  | some c, some d =>
    if c ≤ now ∧ c ≤ d then some Error.Canceled
    else if d ≤ now then some Error.DeadlineExceeded
    else none

/-- Go `context.WithTimeout(parent, timeout)` called at clock reading `now`:
the child inherits the ambient scope; its deadline is `now + timeout` unless the
parent already has an earlier one. -/
def WithTimeout (parent : Context) (now : Time) (timeout : Duration) : Context :=
  match parent.deadline with
  | none => { parent with deadline := some (now + timeout) }
  | some cur =>
    if cur < now + timeout then parent else { parent with deadline := some (now + timeout) }

end context

/-! ## internal/model/task.go -/

namespace model

/-- Go `type TaskRequest struct`.  `Command = none` is the nil slice (the field
absent or `null` on the wire), `some []` the empty non-nil slice (`[]` on the
wire). -/
structure TaskRequest where
  Command : Option (List String)
  Timeout : Int
deriving DecidableEq, Repr

/-- Go `type TaskResult struct`.  `DurationMs` is a `float64` in the source; it
is kept here as the exact quotient, floating-point rounding is not modelled. -/
structure TaskResult where
  Command : Option (List String)
  ExecutedAt : Int
  DurationMs : ℚ
  ExitCode : Int
  Output : String
  Error : String
deriving DecidableEq, Repr

end model

/-! ## internal/constant -/

namespace constant

/-- The two message constants of `internal/constant` that the executor uses;
their values are parameters of the development. -/
structure Messages where
  TaskResultCommandNilError : String
  TaskResultTimeoutError : String

end constant

/-! ## pkg/executor/command.go -/

namespace executor

open context model

/-- The `error` returned by `cmd.CombinedOutput()`: an `*exec.ExitError`, with
the value of its `ExitCode()` and of its `Error()`, or any other error, with the
value of its `Error()`. -/
inductive ExecError where
  | ExitError (exitCode : Int) (text : String)
  | Other (text : String)
deriving DecidableEq, Repr

/-- Go `err.Error()`. -/
def ExecError.Error : ExecError → String
  | ExecError.ExitError _ text => text
  | ExecError.Other text => text

/-- One run of `exec.CommandContext(ctx, name, args...).CombinedOutput()` as the
executor observes it: the captured bytes, the returned error and the clock
reading at which the call returned. -/
structure Process where
  output : String
  err : Option ExecError
  doneAt : Time
deriving DecidableEq, Repr

/-- What one `ExecuteTask` call observes of its surroundings: the reading of
`time.Now()` on entry, the process facility, and the reading taken by
`time.Since` in `calculateDuration`. -/
structure World where
  startAt : Time
  spawn : Context → String → List String → Process
  endAt : Time

/-- What a call that returns leaves behind: the result and the argument vectors
handed to the process facility, in call order. -/
structure Outcome where
  result : TaskResult
  spawned : List (List String)
deriving DecidableEq, Repr

/-- Go `Time.Unix()`: whole seconds since the epoch, rounded down. -/
def unixSeconds (t : Time) : Int := t / 1000000000

/-- Go `calculateDuration`, with `now` the reading taken by `time.Since`:
`time.Unix(executedAt, 0)` is the start of the second `executedAt`. -/
def calculateDuration (now : Time) (executedAt : Int) : ℚ :=
  (Time.Sub now (executedAt * 1000000000) : ℚ) / 1000000

/-- Go `(*CommandExecutor).ExecuteTask`.  `Except.error` is a run-time panic
(here only the index expression `request.Command[0]` on an empty slice). -/
def ExecuteTask (msgs : constant.Messages) (w : World) (ctx : Context)
    (request : TaskRequest) : Except String Outcome :=
  let result : TaskResult :=
    { Command := request.Command, ExecutedAt := unixSeconds w.startAt,
      DurationMs := 0, ExitCode := 0, Output := "", Error := "" }
  match request.Command with
  | none =>
    Except.ok
      { result := { result with ExitCode := -1,
                                Error := msgs.TaskResultCommandNilError },
        spawned := [] }
  | some [] => Except.error "runtime error: index out of range [0] with length 0"
  | some (name :: args) =>
    let p := w.spawn ctx name args
    let result := { result with Output := p.output }
    let result :=
      if ctx.Err p.doneAt = some Error.DeadlineExceeded then
        { result with ExitCode := -1, Error := msgs.TaskResultTimeoutError }
      else
        match p.err with
        | some err =>
          let code := match err with
            | ExecError.ExitError exitCode _ => exitCode
            | ExecError.Other _ => -1
          { result with ExitCode := code, Error := err.Error }
        | none => result
    Except.ok
      { result := { result with DurationMs := calculateDuration w.endAt result.ExecutedAt },
        spawned := [name :: args] }

end executor

/-! ## internal/server/server.go -/

namespace server

open context model

/-- Go `int` and `time.Duration` arithmetic wraps around in 64 bits. -/
def wrapInt64 (x : Int) : Int :=
  (x + 9223372036854775808) % 18446744073709551616 - 9223372036854775808

/-- Go `time.Duration(timeout) * time.Millisecond`. -/
def timeoutDuration (timeout : Int) : Duration := wrapInt64 (timeout * 1000000)

/-- What `scanner.Scan()` yields: a record (`Scan` is true and `scanner.Bytes()`
is `b`), or the end of input (`Scan` is false and `scanner.Err()` is `err`: `nil`
when the peer closed the stream, the error text otherwise, e.g. when the read
deadline fired; `scanner.Err()` never is `io.EOF`). -/
inductive ScanResult where
  | token (b : String)
  | stop (err : Option String)
deriving DecidableEq, Repr

/-- What the connection and the clock do during one iteration of the handler
loop; a field is consulted only if the iteration gets that far. -/
structure Round where
  /-- clock reading when the loop condition `ctx.Err() == nil` is evaluated -/
  headAt : Time
  /-- error returned by `conn.SetReadDeadline` -/
  readDeadline : Option String
  /-- outcome of `scanner.Scan()` -/
  scan : ScanResult
  /-- clock reading when `context.WithTimeout` is called -/
  armAt : Time
  /-- error returned by `conn.SetWriteDeadline` -/
  writeDeadline : Option String
  /-- error returned by `conn.Write(response)` -/
  write : Option String
deriving DecidableEq, Repr

/-- The accepted connection: what `net.SplitHostPort(conn.RemoteAddr().String())`
yields (the host, or the error text) and what happens in the successive
iterations of the handler loop. -/
structure Conn where
  splitHostPort : Except String String
  rounds : List Round

/-- The `encoding/json` calls of the handler. -/
structure Json where
  Unmarshal : String → Except String TaskRequest
  Marshal : TaskResult → Except String String

/-- Go `type TCPServer struct`, the fields the handler uses: the executor
(the `TaskExecutor` interface, called with the context it is handed and the
request; `Except.error` is a panic inside the call), the verdict of the rate limiter (the `RateLimiter` interface) and the
two configured timeouts. -/
structure TCPServer where
  executor : Context → TaskRequest → Except String TaskResult
  rateLimiter : String → Bool
  readTimeout : Duration
  writeTimeout : Duration

/-- The effects of the handler, in the order they happen. -/
inductive Event where
  /-- call of `log.Printf` or `log.Print` -/
  | Log (msg : String)
  /-- call of `s.rateLimiter.Allow(ip)` -/
  | Allow (ip : String)
  /-- call of `conn.SetReadDeadline(time.Now().Add(s.readTimeout))` -/
  | SetReadDeadline (timeout : Duration)
  /-- call of `scanner.Scan()` -/
  | Scan
  /-- call of `s.executor.ExecuteTask(ctx, &request)` -/
  | Execute (ctx : Context) (request : TaskRequest)
  /-- call of `conn.SetWriteDeadline(time.Now().Add(s.writeTimeout))` -/
  | SetWriteDeadline (timeout : Duration)
  /-- bytes handed to the connection by `conn.Write` or `fmt.Fprint(conn, ...)` -/
  | Write (data : String)
  /-- deferred `cancel()` of a timeout scope -/
  | Cancel
  /-- deferred `s.wg.Done()` -/
  | Done
  /-- deferred `conn.Close()` -/
  | Close
  /-- panic that leaves the handler goroutine, after its deferred calls ran -/
  | Panic (msg : String)
deriving DecidableEq, Repr

/-- The deferred calls run when `handleConnection` returns, last deferred first:
the `cancel` of every timeout scope derived so far, `s.wg.Done()`, `conn.Close()`. -/
def leave (cancels : Nat) : List Event :=
  List.replicate cancels Event.Cancel ++ [Event.Done, Event.Close]

/-- The `for ctx.Err() == nil` loop of `handleConnection`.  `ctx` is the current
value of the variable `ctx`, `cancels` the number of deferred `cancel` calls.
When the rounds run out the handler is still inside the loop and the trace ends
without `Close`. -/
def serve (s : TCPServer) (json : Json) : Context → Nat → List Round → List Event
  | _, _, [] => []
  | ctx, cancels, r :: rs =>
    if (ctx.Err r.headAt).isSome then leave cancels
    else
      match r.readDeadline with
      | some err =>
        Event.SetReadDeadline s.readTimeout ::
          Event.Log ("Error setting read deadline: " ++ err) :: leave cancels
      | none =>
        Event.SetReadDeadline s.readTimeout :: Event.Scan ::
        match r.scan with
        | ScanResult.stop none => leave cancels
        | ScanResult.stop (some err) =>
          Event.Log ("Error reading from connection: " ++ err) :: Event.Write err ::
            leave cancels
        | ScanResult.token b =>
          match json.Unmarshal b with
          | Except.error e =>
            Event.Log ("Error parsing request: " ++ e) ::
              Event.Write ("Error parsing request: " ++ e) :: leave cancels
          | Except.ok request =>
            let armed : Context × Nat :=
              if request.Timeout > 0 then
                (WithTimeout ctx r.armAt (timeoutDuration request.Timeout), cancels + 1)
              else (ctx, cancels)
            Event.Execute armed.1 request ::
            match s.executor armed.1 request with
            | Except.error p => leave armed.2 ++ [Event.Panic p]
            | Except.ok result =>
              match r.writeDeadline with
              | some err =>
                Event.SetWriteDeadline s.writeTimeout ::
                  Event.Log ("Error setting write deadline: " ++ err) :: leave armed.2
              | none =>
                Event.SetWriteDeadline s.writeTimeout ::
                match json.Marshal result with
                | Except.error e =>
                  Event.Log ("Error marshaling response: " ++ e) ::
                    Event.Write ("Error marshaling response: " ++ e) ::
                    serve s json armed.1 armed.2 rs
                | Except.ok response =>
                  Event.Write response ::
                  match r.write with
                  | some err =>
                    Event.Log ("Error sending response: " ++ err) ::
                      Event.Write ("Error sending response: " ++ err) ::
                      serve s json armed.1 armed.2 rs
                  | none => serve s json armed.1 armed.2 rs

/-- Go `(*TCPServer).handleConnection`: the trace of its effects. -/
def handleConnection (s : TCPServer) (json : Json) (ctx : Context) (conn : Conn) :
    List Event :=
  match conn.splitHostPort with
  | Except.error e => Event.Log ("Error parsing remote address: " ++ e) :: leave 0
  | Except.ok ip =>
    Event.Allow ip ::
    if s.rateLimiter ip = false then
      Event.Log ("Rate limit exceeded for IP: " ++ ip) :: leave 0
    else serve s json ctx 0 conn.rounds

/-- The payloads written to the connection, in order. -/
def written : List Event → List String
  | [] => []
  | Event.Write data :: es => data :: written es
  | _ :: es => written es

/-- The requests handed to the executor, in order. -/
def executed : List Event → List TaskRequest
  | [] => []
  | Event.Execute _ request :: es => request :: executed es
  | _ :: es => executed es

/-- The number of reads (`scanner.Scan()` calls) in a trace. -/
def reads (es : List Event) : Nat := es.count Event.Scan

end server

/-! ## Sample values

Concrete limiters, worlds and connections at which the properties below are
exercised. -/

namespace ratelimit

/-- The limiter of the test suite: five admissions per two seconds, no entry. -/
def sampleLimiter : IPRateLimiter :=
  { ips := fun _ => none, limit := 5, interval := 2000000000 }

/-- The sample limiter after `192.168.1.1` used up its five admissions, one per
nanosecond from clock reading 0 on. -/
def fullLimiter : IPRateLimiter :=
  (allowAll sampleLimiter "192.168.1.1" [0, 1, 2, 3, 4]).2

/-- Ten calls of `192.168.1.1` around a window boundary of the sample limiter:
one at clock reading 0, four exactly two seconds later, which is still inside the
window, and five one nanosecond after that. -/
def burstCalls : List (Time × String) :=
  [ (0, "192.168.1.1"),
    (2000000000, "192.168.1.1"), (2000000000, "192.168.1.1"),
    (2000000000, "192.168.1.1"), (2000000000, "192.168.1.1"),
    (2000000001, "192.168.1.1"), (2000000001, "192.168.1.1"),
    (2000000001, "192.168.1.1"), (2000000001, "192.168.1.1"),
    (2000000001, "192.168.1.1") ]

/-- Two admissions of `192.168.1.1`, a sweep, and an admission of `0.0.0.1`. -/
def mixedCalls : List Call :=
  [ Call.Allow 0 "192.168.1.1", Call.Allow 1 "192.168.1.1", Call.Clean (fun _ => 2),
    Call.Allow 3 "0.0.0.1" ]

/-- Six calls of `0.0.0.1`, one per nanosecond: as many as it takes to use up its
budget on the sample limiter, and one more. -/
def otherCalls : List (Time × String) :=
  [ (0, "0.0.0.1"), (1, "0.0.0.1"), (2, "0.0.0.1"), (3, "0.0.0.1"), (4, "0.0.0.1"),
    (5, "0.0.0.1") ]

end ratelimit

namespace constant

/-- Sample values for the message constants. -/
def sampleMessages : Messages :=
  { TaskResultCommandNilError := "command is nil",
    TaskResultTimeoutError := "timeout exceeded" }

end constant

namespace executor

open context model

/-- A context without ambient cancellation whose deadline is at 11 ms. -/
def deadlineCtx : Context := { cancelAt := none, deadline := some 11000000 }

/-- A world in which the spawned process is killed when the deadline at 11 ms
fires: nothing was captured and the call returns an exit error, 0.2 ms later. -/
def killedWorld : World :=
  { startAt := 1000000,
    spawn := fun _ _ _ =>
      { output := "", err := some (ExecError.ExitError (-1) "signal: killed"),
        doneAt := 11200000 },
    endAt := 11300000 }

/-- A world in which the executable is not found: the call returns at once with
a lookup error that is not an exit error. -/
def notFoundWorld : World :=
  { startAt := 1000000,
    spawn := fun _ name _ =>
      { output := "",
        err := some (ExecError.Other
          ("exec: \"" ++ name ++ "\": executable file not found in $PATH")),
        doneAt := 1100000 },
    endAt := 1200000 }

/-- A world in which the call starts 0.9 s into a second of the wall clock, the
process prints its line and exits, and the call ends at the turn of the next
second, 100 ms after it started. -/
def lateStartWorld : World :=
  { startAt := 1900000000,
    spawn := fun _ _ _ => { output := "test\n", err := none, doneAt := 1990000000 },
    endAt := 2000000000 }

end executor

namespace server

open context model executor

/-- The ambient scope of the test suites, `context.Background()`: it never fires. -/
def background : Context := { cancelAt := none, deadline := none }

/-- The request line of the timeout test: the printer sleeping 100 ms under a
timeout of 10 ms. -/
def slowLine : String :=
  "\x7b\"command\":[\"printer\",\"-sleep=100\"],\"timeout\":10\x7d"

/-- A request line without a timeout. -/
def plainLine : String := "\x7b\"command\":[\"printer\"]\x7d"

/-- A stand-in for `encoding/json` that knows the two request lines above, refuses
every other line and renders the exit code and the error of a result. -/
def sampleJson : Json :=
  { Unmarshal := fun b =>
      if b = slowLine then
        Except.ok { Command := some ["printer", "-sleep=100"], Timeout := 10 }
      else if b = plainLine then
        Except.ok { Command := some ["printer"], Timeout := 0 }
      else Except.error "invalid character",
    Marshal := fun r =>
      Except.ok ((if r.ExitCode = -1 then "exit_code=-1 error=" else "exit_code=other error=")
        ++ r.Error) }

/-- A server with the command executor (run in the world where the process is
killed at the deadline), the sample limiter queried at clock reading 0, and the
timeouts of the test suites (three seconds). -/
def sampleServer : TCPServer :=
  { executor := fun ctx request =>
      (ExecuteTask constant.sampleMessages killedWorld ctx request).map Outcome.result,
    rateLimiter := fun ip => (ratelimit.sampleLimiter.Allow 0 ip).1,
    readTimeout := 3000000000,
    writeTimeout := 3000000000 }

/-- The same server with the limiter that `192.168.1.1` has exhausted, queried at
clock reading 5. -/
def busyServer : TCPServer :=
  { sampleServer with rateLimiter := fun ip => (ratelimit.fullLimiter.Allow 5 ip).1 }

/-- A round in which the record `b` arrives and every connection call succeeds. -/
def roundOf (headAt : Time) (b : String) (armAt : Time) : Round :=
  { headAt := headAt, readDeadline := none, scan := ScanResult.token b, armAt := armAt,
    writeDeadline := none, write := none }

/-- A connection from `192.168.1.1` on which the slow request arrives, is armed at
1 ms (deadline at 11 ms), and a second request is already waiting when the loop
condition is evaluated again at 12 ms. -/
def slowConn : Conn :=
  { splitHostPort := Except.ok "192.168.1.1",
    rounds := [roundOf 0 slowLine 1000000, roundOf 12000000 plainLine 12100000] }

/-- A connection from `192.168.1.1` on which the line `invalid json` arrives,
followed by a well-formed request. -/
def malformedConn : Conn :=
  { splitHostPort := Except.ok "192.168.1.1",
    rounds := [roundOf 0 "invalid json" 1000000, roundOf 2000000 plainLine 2100000] }

/-- A connection from `192.168.1.1` whose peer closes the stream without sending
anything. -/
def closedConn : Conn :=
  { splitHostPort := Except.ok "192.168.1.1",
    rounds := [ { headAt := 0, readDeadline := none, scan := ScanResult.stop none,
                  armAt := 0, writeDeadline := none, write := none } ] }

/-- A connection from `192.168.1.1` on which nothing arrives until the read
deadline fires, three seconds after it was armed. -/
def idleConn : Conn :=
  { splitHostPort := Except.ok "192.168.1.1",
    rounds := [ { headAt := 0, readDeadline := none,
                  scan := ScanResult.stop
                    (some "read tcp 10.0.0.1:3000->192.168.1.1:50000: i/o timeout"),
                  armAt := 3000000000, writeDeadline := none, write := none } ] }

end server

/-! # Properties -/

namespace ratelimit

/-- Reading a key just stored yields the stored entry. -/
theorem store_same (m : String → Option IP) (ip : String) (e : IP) :
    store m ip e ip = some e := by
  simp [store]

/-- A store leaves the other keys alone. -/
theorem store_other (m : String → Option IP) (ip k : String) (e : IP) (h : k ≠ ip) :
    store m ip e k = m k := by
  simp [store, h]

/-- While the window opened at `t0` is fresh, a source whose entry counts `c`
admissions and has `k` left is admitted `k` more times and refused afterwards. -/
theorem allowAll_fresh_window (s : String) (t0 : Time) :
    ∀ (ts : List Time) (rl : IPRateLimiter) (c : Int) (k : Nat),
      rl.ips s = some { Count := c, LastReset := t0 } →
      c + k = rl.limit →
      (∀ t ∈ ts, Time.Sub t t0 ≤ rl.interval) →
      (allowAll rl s ts).1 =
        List.replicate (min k ts.length) true ++ List.replicate (ts.length - k) false := by
  intro ts
  induction ts with
  | nil => intro rl c k _ _ _; simp [allowAll]
  | cons t ts ih =>
    intro rl c k hentry hk hwin
    have ht : ¬ Time.Sub t t0 > rl.interval :=
      not_lt.mpr (hwin t (List.mem_cons_self t ts))
    have hts : ∀ u ∈ ts, Time.Sub u t0 ≤ rl.interval :=
      fun u hu => hwin u (List.mem_cons_of_mem t hu)
    cases k with
    | zero =>
      have hfull : c ≥ rl.limit := by simp at hk; omega
      have hstep : rl.Allow t s = (false, rl) := by
        simp [IPRateLimiter.Allow, hentry, ht, hfull]
      have := ih rl c 0 hentry hk hts
      simp [allowAll, hstep, this, List.replicate_succ]
    | succ k =>
      have hroom : ¬ c ≥ rl.limit := by push_cast at hk; omega
      have hstep : rl.Allow t s =
          (true, { rl with ips := store rl.ips s { Count := c + 1, LastReset := t0 } }) := by
        simp [IPRateLimiter.Allow, hentry, ht, hroom]
      have := ih { rl with ips := store rl.ips s { Count := c + 1, LastReset := t0 } }
        (c + 1) k (store_same _ _ _)
        (by show c + 1 + (k : Int) = rl.limit; push_cast at hk; omega) hts
      simp [allowAll, hstep, this, List.replicate_succ, Nat.succ_min_succ]

/-- C1: on a limiter with limit `L ≥ 1` and a source `s` without an entry,
`L + 1` consecutive `Allow(s)` calls whose clock readings are all at most
`interval` after the first call's reading return true for the first `L` calls and
false for the last one.  (That the readings are non-decreasing is not needed.) -/
theorem Allow_admits_exactly_limit (rl : IPRateLimiter) (s : String) (L : Nat)
    (t0 : Time) (ts : List Time)
    (hL : 1 ≤ L) (hlimit : rl.limit = L) (hnew : rl.ips s = none)
    (hlen : ts.length = L)
    (hwin : ∀ t ∈ ts, Time.Sub t t0 ≤ rl.interval) :
    (allowAll rl s (t0 :: ts)).1 = List.replicate L true ++ [false] := by
  have hstep : rl.Allow t0 s =
      (true, { rl with ips := store rl.ips s { Count := 1, LastReset := t0 } }) := by
    simp [IPRateLimiter.Allow, hnew]
  obtain ⟨k, rfl⟩ : ∃ k, L = k + 1 := ⟨L - 1, by omega⟩
  have := allowAll_fresh_window s t0 ts
    { rl with ips := store rl.ips s { Count := 1, LastReset := t0 } } 1 k
    (store_same _ _ _) (by simp [hlimit]; omega) hwin
  simp [allowAll, hstep, this, hlen, List.replicate_succ]

end ratelimit

namespace ratelimit

/-- C1 at the limiter of the test suite: five calls admitted, the sixth refused. -/
theorem Allow_admits_exactly_limit_witness :
    (allowAll sampleLimiter "192.168.1.1" [0, 1, 2, 3, 4, 5]).1
      = [true, true, true, true, true, false] :=
  Allow_admits_exactly_limit sampleLimiter "192.168.1.1" 5 0 [1, 2, 3, 4, 5]
    (by decide) rfl rfl rfl (by decide)

/-- C4: when the source has an entry (whatever its count) and the clock reading
`now` is more than `interval` after the entry's window start, `Allow` returns true
and leaves the entry with count 1 and window start `now`. -/
theorem Allow_resets_stale_window (rl : IPRateLimiter) (s : String) (entry : IP)
    (now : Time) (hentry : rl.ips s = some entry)
    (hstale : Time.Sub now entry.LastReset > rl.interval) :
    (rl.Allow now s).1 = true ∧
      (rl.Allow now s).2.ips s = some { Count := 1, LastReset := now } := by
  simp [IPRateLimiter.Allow, hentry, hstale, store_same]

/-- C4 at the exhausted sample limiter, three seconds after the window opened. -/
theorem Allow_resets_stale_window_witness :
    (fullLimiter.Allow 3000000000 "192.168.1.1").1 = true ∧
      (fullLimiter.Allow 3000000000 "192.168.1.1").2.ips "192.168.1.1"
        = some { Count := 1, LastReset := 3000000000 } :=
  Allow_resets_stale_window fullLimiter "192.168.1.1" { Count := 5, LastReset := 0 }
    3000000000 (by decide) (by decide)

/-- C5: after `Clean` at clock reading `now` the table holds exactly the entries
of the previous table whose `now - LastReset` is at most `interval`, unchanged:
an entry is in the swept table iff it was in the table and is that recent. -/
theorem Clean_keeps_exactly_fresh (rl : IPRateLimiter) (now : Time) (ip : String)
    (entry : IP) :
    (rl.Clean (fun _ => now)).ips ip = some entry ↔
      (rl.ips ip = some entry ∧ Time.Sub now entry.LastReset ≤ rl.interval) := by
  have hclean : (rl.Clean (fun _ => now)).ips ip =
      match rl.ips ip with
      | none => none
      | some e => if Time.Sub now e.LastReset > rl.interval then none else some e := rfl
  rw [hclean]
  cases h : rl.ips ip with
  | none => simp
  | some e =>
    by_cases hs : Time.Sub now e.LastReset > rl.interval
    · simp only [hs, if_true]
      constructor
      · intro hx; cases hx
      · rintro ⟨he, hle⟩
        cases he
        exact absurd hs (not_lt.mpr hle)
    · simp only [hs, if_false]
      constructor
      · intro hx
        cases hx
        exact ⟨rfl, not_lt.mp hs⟩
      · rintro ⟨he, _⟩
        exact he

/-- C6 fails as stated: with limit 5 and interval 0 the constructor succeeds
although `interval <= 0`. -/
theorem NewIPRateLimiter_accepts_zero_interval :
    ¬ ((∃ e, NewIPRateLimiter 5 0 = Except.error e) ↔ ((5 : Int) ≤ 0 ∨ (0 : Duration) ≤ 0)) := by
  intro h
  obtain ⟨e, he⟩ := h.mpr (Or.inr (le_refl 0))
  simp [NewIPRateLimiter] at he

/-- C6 amended: `NewIPRateLimiter limit interval` fails iff `limit <= 0`, whatever
the interval; when `limit > 0` it returns a limiter with an empty table that
stores exactly that limit and interval. -/
theorem NewIPRateLimiter_fails_iff (limit : Int) (interval : Duration) :
    ((∃ e, NewIPRateLimiter limit interval = Except.error e) ↔ limit ≤ 0) ∧
    (0 < limit → ∃ rl, NewIPRateLimiter limit interval = Except.ok rl ∧
      rl.limit = limit ∧ rl.interval = interval ∧ ∀ ip, rl.ips ip = none) := by
  by_cases h : limit < 1
  · have h0 : limit ≤ 0 := by omega
    refine ⟨⟨fun _ => h0, fun _ => ⟨_, by simp [NewIPRateLimiter, h]; rfl⟩⟩, fun hp => ?_⟩
    omega
  · have h0 : ¬ limit ≤ 0 := by omega
    refine ⟨⟨fun ⟨e, he⟩ => ?_, fun hn => absurd hn h0⟩, fun _ => ?_⟩
    · simp [NewIPRateLimiter, h] at he
    · exact ⟨_, by simp [NewIPRateLimiter, h]; rfl, rfl, rfl, fun _ => rfl⟩

/-- C6 amended, at limit 5 and the negative interval -3. -/
theorem NewIPRateLimiter_fails_iff_witness :
    ∃ rl, NewIPRateLimiter 5 (-3) = Except.ok rl ∧
      rl.limit = 5 ∧ rl.interval = -3 ∧ ∀ ip, rl.ips ip = none :=
  (NewIPRateLimiter_fails_iff 5 (-3)).2 (by decide)

end ratelimit

namespace executor

open context model

/-- The nil half of C2: for an absent command, whatever the timeout, the world and
the context, `ExecuteTask` returns exit code -1 with the nil-command message and
does not call the process facility. -/
theorem ExecuteTask_nil_command (msgs : constant.Messages) (w : World) (ctx : Context)
    (timeout : Int) :
    ∃ out, ExecuteTask msgs w ctx { Command := none, Timeout := timeout } = Except.ok out ∧
      out.result.ExitCode = -1 ∧
      out.result.Error = msgs.TaskResultCommandNilError ∧
      out.spawned = [] :=
  ⟨_, rfl, rfl, rfl, rfl⟩

/-- C2, the code at the failing input: for the empty, non-nil command `[]`,
whatever the timeout, the world and the context, `ExecuteTask` does not return a
result: the index expression `request.Command[0]` panics. -/
theorem ExecuteTask_empty_command_panics (msgs : constant.Messages) (w : World)
    (ctx : Context) (timeout : Int) :
    ExecuteTask msgs w ctx { Command := some [], Timeout := timeout }
      = Except.error "runtime error: index out of range [0] with length 0" :=
  rfl

/-- C7: for a non-nil, non-empty command, if the context's error after the process
call is deadline-exceeded, `ExecuteTask` returns exit code -1 and the timeout
message, whatever output and error the process call reported. -/
theorem ExecuteTask_deadline_overrides (msgs : constant.Messages) (w : World)
    (ctx : Context) (request : TaskRequest) (name : String) (args : List String)
    (hcmd : request.Command = some (name :: args))
    (hctx : ctx.Err (w.spawn ctx name args).doneAt = some Error.DeadlineExceeded) :
    ∃ out, ExecuteTask msgs w ctx request = Except.ok out ∧
      out.result.ExitCode = -1 ∧
      out.result.Error = msgs.TaskResultTimeoutError := by
  simp [ExecuteTask, hcmd, hctx]

/-- C7 where the process call itself reported an exit error (`signal: killed`). -/
theorem ExecuteTask_deadline_overrides_witness :
    ∃ out, ExecuteTask constant.sampleMessages killedWorld deadlineCtx
        { Command := some ["sleep", "2"], Timeout := 10 } = Except.ok out ∧
      out.result.ExitCode = -1 ∧
      out.result.Error = "timeout exceeded" :=
  ExecuteTask_deadline_overrides constant.sampleMessages killedWorld deadlineCtx
    { Command := some ["sleep", "2"], Timeout := 10 } "sleep" ["2"] rfl (by decide)

/-- C8: for a non-nil, non-empty command whose context is not deadline-exceeded
after the process call, `ExecuteTask` returns the captured output and
* the exit status of the process and the error text, if the call returned an exit
  error;
* -1 and the error text, if the call returned any other error;
* 0 and the empty error, if the call returned no error.
The error field is the underlying error text itself, so it is non-empty whenever
that text is. -/
theorem ExecuteTask_reports_process_outcome (msgs : constant.Messages) (w : World)
    (ctx : Context) (request : TaskRequest) (name : String) (args : List String)
    (hcmd : request.Command = some (name :: args))
    (hctx : ctx.Err (w.spawn ctx name args).doneAt ≠ some Error.DeadlineExceeded) :
    ∃ out, ExecuteTask msgs w ctx request = Except.ok out ∧
      out.result.Output = (w.spawn ctx name args).output ∧
      (∀ code text, (w.spawn ctx name args).err = some (ExecError.ExitError code text) →
        out.result.ExitCode = code ∧ out.result.Error = text) ∧
      (∀ text, (w.spawn ctx name args).err = some (ExecError.Other text) →
        out.result.ExitCode = -1 ∧ out.result.Error = text) ∧
      ((w.spawn ctx name args).err = none →
        out.result.ExitCode = 0 ∧ out.result.Error = "") ∧
      (∀ err, (w.spawn ctx name args).err = some err →
        err.Error ≠ "" → out.result.Error ≠ "") := by
  refine ⟨_, by simp only [ExecuteTask, hcmd, hctx, if_false]; rfl, ?_⟩
  cases herr : (w.spawn ctx name args).err with
  | none => simp
  | some err =>
    cases err with
    | ExitError code text => simp [ExecError.Error]
    | Other text => simp [ExecError.Error]

/-- C8 for the executable that does not exist: exit code -1 and the lookup error. -/
theorem ExecuteTask_reports_process_outcome_witness :
    ∃ out, ExecuteTask constant.sampleMessages notFoundWorld deadlineCtx
        { Command := some ["fake_command"], Timeout := 10 } = Except.ok out ∧
      out.result.ExitCode = -1 ∧
      out.result.Error = "exec: \"fake_command\": executable file not found in $PATH" := by
  obtain ⟨out, hout, _, _, hother, _, _⟩ :=
    ExecuteTask_reports_process_outcome constant.sampleMessages notFoundWorld deadlineCtx
      { Command := some ["fake_command"], Timeout := 10 } "fake_command" [] rfl (by decide)
  exact ⟨out, hout, hother _ rfl⟩

end executor

namespace server

open context model executor

/-- The deferred calls write nothing. -/
theorem written_leave (cancels : Nat) : written (leave cancels) = [] := by
  induction cancels with
  | zero => rfl
  | succ n ih => simpa [leave, List.replicate_succ, written] using ih

/-- The deferred calls do not invoke the executor. -/
theorem executed_leave (cancels : Nat) : executed (leave cancels) = [] := by
  induction cancels with
  | zero => rfl
  | succ n ih => simpa [leave, List.replicate_succ, executed] using ih

/-- The deferred calls do not read. -/
theorem reads_leave (cancels : Nat) : reads (leave cancels) = 0 := by
  induction cancels with
  | zero => rfl
  | succ n ih => simpa [leave, List.replicate_succ, reads] using ih

/-- The deferred calls end with closing the connection. -/
theorem getLast_leave (cancels : Nat) : (leave cancels).getLast? = some Event.Close := by
  simp [leave]

/-- The ambient scope of the sample connections never fires. -/
theorem background_never_fires (now : Time) : background.Err now = none := rfl

/-- C3, the code at the failing input.  The ambient scope never fires, the first
request (timeout 10 ms) is served with the timeout result once its deadline has
expired, and a second request is waiting; the handler does not read it: the loop
condition consults the timeout scope that was stored in `ctx`, and the handler
runs its deferred calls and closes the connection after a single read. -/
theorem handleConnection_closes_after_request_timeout :
    handleConnection sampleServer sampleJson background slowConn =
      [ Event.Allow "192.168.1.1",
        Event.SetReadDeadline 3000000000,
        Event.Scan,
        Event.Execute { cancelAt := none, deadline := some 11000000 }
          { Command := some ["printer", "-sleep=100"], Timeout := 10 },
        Event.SetWriteDeadline 3000000000,
        Event.Write "exit_code=-1 error=timeout exceeded",
        Event.Cancel, Event.Done, Event.Close ] ∧
    reads (handleConnection sampleServer sampleJson background slowConn) = 1 ∧
    slowConn.rounds.length = 2 := by
  decide

/-- The defect behind C3 in general: once a request with a positive timeout has
been served, the loop condition consults the timeout scope; if that scope has
fired when the condition is evaluated again, the handler returns and closes the
connection, whatever the ambient scope does and whatever is waiting to be read. -/
theorem serve_leaves_on_request_deadline (s : TCPServer) (json : Json) (ctx : Context)
    (cancels : Nat) (r next : Round) (rs : List Round) (b response : String)
    (request : TaskRequest) (result : TaskResult)
    (hlive : ctx.Err r.headAt = none) (harm : r.readDeadline = none)
    (hscan : r.scan = ScanResult.token b) (hreq : json.Unmarshal b = Except.ok request)
    (htimeout : request.Timeout > 0)
    (hexec : s.executor (WithTimeout ctx r.armAt (timeoutDuration request.Timeout)) request
      = Except.ok result)
    (hwarm : r.writeDeadline = none) (henc : json.Marshal result = Except.ok response)
    (hwrite : r.write = none)
    (hfired : ((WithTimeout ctx r.armAt (timeoutDuration request.Timeout)).Err
      next.headAt).isSome = true) :
    serve s json ctx cancels (r :: next :: rs) =
      [ Event.SetReadDeadline s.readTimeout, Event.Scan,
        Event.Execute (WithTimeout ctx r.armAt (timeoutDuration request.Timeout)) request,
        Event.SetWriteDeadline s.writeTimeout,
        Event.Write response ] ++ leave (cancels + 1) := by
  simp [serve, hlive, harm, hscan, hreq, htimeout, hexec, hwarm, henc, hwrite, hfired]

/-- C9: when a record arrives (the loop is running, the read deadline was armed
and the scan yielded the record `b`) that does not decode as a request, the rest
of the handler's trace is: the read, the message `Error parsing request: ...`
written to the connection, the deferred calls ending with `Close`.  The executor
is not invoked, nothing is read after the record, and the rounds still to come
(`rs`) are ignored.  `ctx` and `cancels` are the state of the loop when the
record is read, so this covers every iteration. -/
theorem serve_decode_failure (s : TCPServer) (json : Json) (ctx : Context)
    (cancels : Nat) (r : Round) (rs : List Round) (b e : String)
    (hlive : ctx.Err r.headAt = none) (harm : r.readDeadline = none)
    (hscan : r.scan = ScanResult.token b) (hbad : json.Unmarshal b = Except.error e) :
    serve s json ctx cancels (r :: rs) =
      [ Event.SetReadDeadline s.readTimeout, Event.Scan,
        Event.Log ("Error parsing request: " ++ e),
        Event.Write ("Error parsing request: " ++ e) ] ++ leave cancels ∧
    written (serve s json ctx cancels (r :: rs)) = ["Error parsing request: " ++ e] ∧
    executed (serve s json ctx cancels (r :: rs)) = [] ∧
    reads (serve s json ctx cancels (r :: rs)) = 1 ∧
    (serve s json ctx cancels (r :: rs)).getLast? = some Event.Close := by
  have htrace : serve s json ctx cancels (r :: rs) =
      [ Event.SetReadDeadline s.readTimeout, Event.Scan,
        Event.Log ("Error parsing request: " ++ e),
        Event.Write ("Error parsing request: " ++ e) ] ++ leave cancels := by
    simp [serve, hlive, harm, hscan, hbad]
  refine ⟨htrace, ?_, ?_, ?_, ?_⟩
  · rw [htrace]; simp [written, written_leave]
  · rw [htrace]; simp [executed, executed_leave]
  · rw [htrace]
    have := reads_leave cancels
    simp only [reads] at this ⊢
    simp [List.count_cons, this]
  · rw [htrace, List.getLast?_append, getLast_leave]; rfl

/-- C9 at the connection on which `invalid json` arrives first. -/
theorem serve_decode_failure_witness :
    serve sampleServer sampleJson background 0 malformedConn.rounds =
      [ Event.SetReadDeadline 3000000000, Event.Scan,
        Event.Log "Error parsing request: invalid character",
        Event.Write "Error parsing request: invalid character",
        Event.Done, Event.Close ] :=
  (serve_decode_failure sampleServer sampleJson background 0
    (roundOf 0 "invalid json" 1000000) [roundOf 2000000 plainLine 2100000]
    "invalid json" "invalid character" rfl rfl rfl rfl).1

/-- C10: when the rate limiter rejects the source of a connection, the handler
only logs and runs its deferred calls: it writes nothing to the connection, does
not invoke the executor, does not read, and closes the connection. -/
theorem handleConnection_rejected_silent (s : TCPServer) (json : Json) (ctx : Context)
    (conn : Conn) (ip : String)
    (haddr : conn.splitHostPort = Except.ok ip) (hreject : s.rateLimiter ip = false) :
    handleConnection s json ctx conn =
      [ Event.Allow ip, Event.Log ("Rate limit exceeded for IP: " ++ ip),
        Event.Done, Event.Close ] ∧
    written (handleConnection s json ctx conn) = [] ∧
    executed (handleConnection s json ctx conn) = [] ∧
    reads (handleConnection s json ctx conn) = 0 := by
  have htrace : handleConnection s json ctx conn =
      [ Event.Allow ip, Event.Log ("Rate limit exceeded for IP: " ++ ip),
        Event.Done, Event.Close ] := by
    simp [handleConnection, haddr, hreject, leave]
  refine ⟨htrace, ?_, ?_, ?_⟩ <;> rw [htrace] <;> simp [written, executed, reads]

/-- C10 at the server whose limiter `192.168.1.1` has exhausted. -/
theorem handleConnection_rejected_silent_witness :
    handleConnection busyServer sampleJson background slowConn =
      [ Event.Allow "192.168.1.1", Event.Log "Rate limit exceeded for IP: 192.168.1.1",
        Event.Done, Event.Close ] :=
  (handleConnection_rejected_silent busyServer sampleJson background slowConn
    "192.168.1.1" rfl (by decide)).1

end server

namespace ratelimit

/-- `Allow` never changes the configured limit. -/
theorem Allow_limit (rl : IPRateLimiter) (now : Time) (ip : String) :
    (rl.Allow now ip).2.limit = rl.limit := by
  unfold IPRateLimiter.Allow
  split
  · rfl
  · split_ifs <;> rfl

/-- `Allow` never changes the configured interval. -/
theorem Allow_interval (rl : IPRateLimiter) (now : Time) (ip : String) :
    (rl.Allow now ip).2.interval = rl.interval := by
  unfold IPRateLimiter.Allow
  split
  · rfl
  · split_ifs <;> rfl

/-- `Allow(s)` leaves the entry of every other source alone. -/
theorem Allow_ips_other (rl : IPRateLimiter) (now : Time) (s t : String) (hst : s ≠ t) :
    (rl.Allow now s).2.ips t = rl.ips t := by
  have hts : t ≠ s := fun h => hst h.symm
  unfold IPRateLimiter.Allow
  split
  · exact store_other _ _ _ _ hts
  · split_ifs
    · exact store_other _ _ _ _ hts
    · rfl
    · exact store_other _ _ _ _ hts

/-- The verdict of `Allow(t)` and the entry it leaves for `t` depend only on the
entry of `t`, the limit and the interval. -/
theorem Allow_congr (rl other : IPRateLimiter) (now : Time) (t : String)
    (hips : other.ips t = rl.ips t) (hlimit : other.limit = rl.limit)
    (hinterval : other.interval = rl.interval) :
    (other.Allow now t).1 = (rl.Allow now t).1 ∧
      (other.Allow now t).2.ips t = (rl.Allow now t).2.ips t := by
  unfold IPRateLimiter.Allow
  rw [hips, hlimit, hinterval]
  cases rl.ips t with
  | none => simp [store_same]
  | some e => dsimp only; split_ifs <;> simp [store_same, hips]

/-- A sequence of `Allow` calls changes neither limit nor interval, and leaves
alone the entry of a source none of the calls is for. -/
theorem allowEach_frame (t : String) :
    ∀ (calls : List (Time × String)) (rl : IPRateLimiter),
      (∀ c ∈ calls, c.2 ≠ t) →
      (allowEach rl calls).ips t = rl.ips t ∧
        (allowEach rl calls).limit = rl.limit ∧
        (allowEach rl calls).interval = rl.interval := by
  intro calls
  induction calls with
  | nil => intro rl _; exact ⟨rfl, rfl, rfl⟩
  | cons c cs ih =>
    intro rl hother
    obtain ⟨h1, h2, h3⟩ :=
      ih (rl.Allow c.1 c.2).2 (fun d hd => hother d (List.mem_cons_of_mem c hd))
    have hc : c.2 ≠ t := hother c (List.mem_cons_self c cs)
    refine ⟨?_, ?_, ?_⟩
    · show (allowEach (rl.Allow c.1 c.2).2 cs).ips t = rl.ips t
      rw [h1, Allow_ips_other rl c.1 c.2 t hc]
    · show (allowEach (rl.Allow c.1 c.2).2 cs).limit = rl.limit
      rw [h2, Allow_limit]
    · show (allowEach (rl.Allow c.1 c.2).2 cs).interval = rl.interval
      rw [h3, Allow_interval]

/-- C14: `Allow` calls for other sources leave the entry of `t` unchanged (its
presence, count and window start), so a later `Allow(t)` gives the same verdict
and leaves the same entry for `t` as if those calls had not been made; one call
`Allow(s)` with `s ≠ t` is the sequence of length one. -/
theorem Allow_other_sources_frame (rl : IPRateLimiter) (t : String)
    (calls : List (Time × String)) (hother : ∀ c ∈ calls, c.2 ≠ t) :
    (allowEach rl calls).ips t = rl.ips t ∧
      ∀ now, ((allowEach rl calls).Allow now t).1 = (rl.Allow now t).1 ∧
        ((allowEach rl calls).Allow now t).2.ips t = (rl.Allow now t).2.ips t := by
  obtain ⟨h1, h2, h3⟩ := allowEach_frame t calls rl hother
  exact ⟨h1, fun now => Allow_congr rl (allowEach rl calls) now t h1 h2 h3⟩

/-- C14 on the sample limiter: after `0.0.0.1` has used up its budget and been
refused, `0.0.0.2` still has no entry and is admitted. -/
theorem Allow_other_sources_frame_witness :
    (allowEach sampleLimiter otherCalls).ips "0.0.0.2" = none ∧
      ((allowEach sampleLimiter otherCalls).Allow 6 "0.0.0.2").1 = true := by
  have h := Allow_other_sources_frame sampleLimiter "0.0.0.2" otherCalls (by decide)
  exact ⟨h.1, (h.2 6).1⟩

/-- Go `Time.Sub` is monotone in the later reading. -/
theorem Sub_mono (t u w : Time) (h : t ≤ u) : Time.Sub t w ≤ Time.Sub u w := by
  have key : ∀ a b : Int, a ≤ b →
      (if a < -9223372036854775808 then (-9223372036854775808 : Int)
        else if 9223372036854775807 < a then 9223372036854775807 else a) ≤
      (if b < -9223372036854775808 then (-9223372036854775808 : Int)
        else if 9223372036854775807 < b then 9223372036854775807 else b) := by
    intro a b hab
    split_ifs <;> omega
  exact key (t - w) (u - w) (Int.sub_le_sub_right h w)

/-- C16: `Clean` never changes admission.  For clock readings `t ≤ u`, calling
`Clean` at `t` and then `Allow(s)` at `u` returns the same verdict, and leaves the
same entry for `s`, as calling `Allow(s)` at `u` without the `Clean`. -/
theorem Clean_then_Allow (rl : IPRateLimiter) (s : String) (t u : Time) (h : t ≤ u) :
    ((rl.Clean (fun _ => t)).Allow u s).1 = (rl.Allow u s).1 ∧
      ((rl.Clean (fun _ => t)).Allow u s).2.ips s = (rl.Allow u s).2.ips s := by
  have hclean : (rl.Clean (fun _ => t)).ips s =
      match rl.ips s with
      | none => none
      | some e => if Time.Sub t e.LastReset > rl.interval then none else some e := rfl
  cases hs : rl.ips s with
  | none =>
    rw [hs] at hclean
    exact Allow_congr rl _ u s (by rw [hclean, hs]) rfl rfl
  | some e =>
    rw [hs] at hclean
    by_cases hstale : Time.Sub t e.LastReset > rl.interval
    · have hlater : Time.Sub u e.LastReset > rl.interval :=
        lt_of_lt_of_le hstale (Sub_mono t u e.LastReset h)
      simp only [hstale, if_true] at hclean
      have hint : (rl.Clean (fun _ => t)).interval = rl.interval := rfl
      simp [IPRateLimiter.Allow, hclean, hs, hlater, store_same]
    · simp only [hstale, if_false] at hclean
      exact Allow_congr rl _ u s (by rw [hclean, hs]) rfl rfl

/-- C16 on the exhausted sample limiter: swept at three seconds and asked at
four, `192.168.1.1` is admitted with a new entry, with or without the sweep. -/
theorem Clean_then_Allow_witness :
    ((fullLimiter.Clean (fun _ => 3000000000)).Allow 4000000000 "192.168.1.1").1
        = (fullLimiter.Allow 4000000000 "192.168.1.1").1 ∧
      ((fullLimiter.Clean (fun _ => 3000000000)).Allow 4000000000 "192.168.1.1").2.ips
          "192.168.1.1"
        = (fullLimiter.Allow 4000000000 "192.168.1.1").2.ips "192.168.1.1" :=
  Clean_then_Allow fullLimiter "192.168.1.1" 3000000000 4000000000 (by decide)

end ratelimit

namespace ratelimit

/-- The entry `Allow(s)` leaves for `s`. -/
theorem Allow_ips_self (rl : IPRateLimiter) (now : Time) (s : String) :
    (rl.Allow now s).2.ips s =
      match rl.ips s with
      | none => some { Count := 1, LastReset := now }
      | some e =>
        if Time.Sub now e.LastReset > rl.interval then some { Count := 1, LastReset := now }
        else if e.Count ≥ rl.limit then some e
        else some { Count := e.Count + 1, LastReset := e.LastReset } := by
  unfold IPRateLimiter.Allow
  cases h : rl.ips s with
  | none => simp [store_same]
  | some e => dsimp only; split_ifs <;> simp [store_same, h]

/-- The verdict of `Allow(s)`. -/
theorem Allow_verdict (rl : IPRateLimiter) (now : Time) (s : String) :
    (rl.Allow now s).1 =
      match rl.ips s with
      | none => true
      | some e =>
        if Time.Sub now e.LastReset > rl.interval then true
        else if e.Count ≥ rl.limit then false
        else true := by
  unfold IPRateLimiter.Allow
  cases h : rl.ips s with
  | none => rfl
  | some e => dsimp only; split_ifs <;> rfl

/-- The entry `Clean` leaves for a source. -/
theorem Clean_ips (rl : IPRateLimiter) (clock : String → Time) (ip : String) :
    (rl.Clean clock).ips ip =
      match rl.ips ip with
      | none => none
      | some e => if Time.Sub (clock ip) e.LastReset > rl.interval then none else some e :=
  rfl

/-- One call keeps limit and interval, and keeps every count between 1 and the
limit. -/
theorem step_counts_bounded (rl : IPRateLimiter) (c : Call) (hL : 1 ≤ rl.limit)
    (hinv : ∀ ip e, rl.ips ip = some e → 1 ≤ e.Count ∧ e.Count ≤ rl.limit) :
    (rl.step c).limit = rl.limit ∧ (rl.step c).interval = rl.interval ∧
      ∀ ip e, (rl.step c).ips ip = some e → 1 ≤ e.Count ∧ e.Count ≤ rl.limit := by
  cases c with
  | Allow now s =>
    refine ⟨Allow_limit rl now s, Allow_interval rl now s, fun ip e he => ?_⟩
    by_cases hip : s = ip
    · subst hip
      have hself := Allow_ips_self rl now s
      have he2 : (rl.Allow now s).2.ips s = some e := he
      rw [he2] at hself
      cases hs : rl.ips s with
      | none =>
        rw [hs] at hself
        cases hself
        exact ⟨le_refl 1, hL⟩
      | some old =>
        rw [hs] at hself
        obtain ⟨h1, h2⟩ := hinv s old hs
        dsimp only at hself
        split_ifs at hself with hstale hfull
        · cases hself; exact ⟨le_refl 1, hL⟩
        · cases hself; exact ⟨h1, h2⟩
        · cases hself
          have hlt : old.Count < rl.limit := not_le.mp hfull
          exact ⟨by show (1 : Int) ≤ old.Count + 1; omega,
            by show old.Count + 1 ≤ rl.limit; omega⟩
    · have he2 : (rl.Allow now s).2.ips ip = some e := he
      rw [Allow_ips_other rl now s ip hip] at he2
      exact hinv ip e he2
  | Clean clock =>
    refine ⟨rfl, rfl, fun ip e he => ?_⟩
    have he2 : (rl.Clean clock).ips ip = some e := he
    rw [Clean_ips] at he2
    cases hs : rl.ips ip with
    | none => rw [hs] at he2; cases he2
    | some old =>
      rw [hs] at he2
      dsimp only at he2
      split_ifs at he2
      cases he2
      exact hinv ip e hs

/-- A sequence of calls keeps limit and interval, and keeps every count between 1
and the limit. -/
theorem run_counts_bounded :
    ∀ (calls : List Call) (rl : IPRateLimiter), 1 ≤ rl.limit →
      (∀ ip e, rl.ips ip = some e → 1 ≤ e.Count ∧ e.Count ≤ rl.limit) →
      (rl.run calls).limit = rl.limit ∧ (rl.run calls).interval = rl.interval ∧
        ∀ ip e, (rl.run calls).ips ip = some e → 1 ≤ e.Count ∧ e.Count ≤ rl.limit := by
  intro calls
  induction calls with
  | nil => intro rl _ hinv; exact ⟨rfl, rfl, hinv⟩
  | cons c cs ih =>
    intro rl hL hinv
    obtain ⟨h1, h2, h3⟩ := step_counts_bounded rl c hL hinv
    obtain ⟨k1, k2, k3⟩ := ih (rl.step c) (by rw [h1]; exact hL) (by rw [h1]; exact h3)
    refine ⟨?_, ?_, ?_⟩
    · show ((rl.step c).run cs).limit = rl.limit
      rw [k1, h1]
    · show ((rl.step c).run cs).interval = rl.interval
      rw [k2, h2]
    · intro ip e he
      have := k3 ip e he
      rwa [h1] at this

/-- What one call does to an entry that is in the table: `Clean` deletes it when
it is stale, `Allow` for its source resets it to count 1 when it is stale, and in
every other case the entry keeps its window start and its count does not
decrease. -/
theorem step_entry (rl : IPRateLimiter) (c : Call) (ip : String) (e : IP)
    (he : rl.ips ip = some e) :
    (∃ clock, c = Call.Clean clock ∧ Time.Sub (clock ip) e.LastReset > rl.interval ∧
        (rl.step c).ips ip = none) ∨
    (∃ now, c = Call.Allow now ip ∧ Time.Sub now e.LastReset > rl.interval ∧
        (rl.step c).ips ip = some { Count := 1, LastReset := now }) ∨
    (∃ e', (rl.step c).ips ip = some e' ∧ e'.LastReset = e.LastReset ∧
        e.Count ≤ e'.Count) := by
  cases c with
  | Allow now s =>
    by_cases hip : s = ip
    · subst hip
      have hself : (rl.step (Call.Allow now s)).ips s = _ := Allow_ips_self rl now s
      rw [he] at hself
      dsimp only at hself
      split_ifs at hself with hstale hfull
      · exact Or.inr (Or.inl ⟨now, rfl, hstale, hself⟩)
      · exact Or.inr (Or.inr ⟨e, hself, rfl, le_refl _⟩)
      · exact Or.inr (Or.inr ⟨_, hself, rfl, by show e.Count ≤ e.Count + 1; omega⟩)
    · have hframe : (rl.step (Call.Allow now s)).ips ip = rl.ips ip :=
        Allow_ips_other rl now s ip hip
      exact Or.inr (Or.inr ⟨e, by rw [hframe, he], rfl, le_refl _⟩)
  | Clean clock =>
    have hclean : (rl.step (Call.Clean clock)).ips ip = _ := Clean_ips rl clock ip
    rw [he] at hclean
    dsimp only at hclean
    split_ifs at hclean with hstale
    · exact Or.inl ⟨clock, rfl, hstale, hclean⟩
    · exact Or.inr (Or.inr ⟨e, hclean, rfl, le_refl _⟩)

/-- C13: in every state reached from a newly constructed limiter by a sequence of
`Allow` and `Clean` calls (whatever their clock readings), every entry has
`1 ≤ count ≤ limit`; and whatever call comes next, an entry of the table is either
swept by `Clean` because it is stale, or reset to count 1 by `Allow` because it is
stale, or keeps its window start with a count that did not decrease. -/
theorem reachable_counts_bounded (limit : Int) (interval : Duration)
    (rl0 : IPRateLimiter) (hnew : NewIPRateLimiter limit interval = Except.ok rl0)
    (calls : List Call) :
    (∀ ip e, (rl0.run calls).ips ip = some e → 1 ≤ e.Count ∧ e.Count ≤ limit) ∧
    (∀ (c : Call) ip e, (rl0.run calls).ips ip = some e →
      (∃ clock, c = Call.Clean clock ∧ Time.Sub (clock ip) e.LastReset > interval ∧
          ((rl0.run calls).step c).ips ip = none) ∨
      (∃ now, c = Call.Allow now ip ∧ Time.Sub now e.LastReset > interval ∧
          ((rl0.run calls).step c).ips ip = some { Count := 1, LastReset := now }) ∨
      (∃ e', ((rl0.run calls).step c).ips ip = some e' ∧ e'.LastReset = e.LastReset ∧
          e.Count ≤ e'.Count)) := by
  have hlim : ¬ limit < 1 := by
    intro hlt
    simp [NewIPRateLimiter, hlt] at hnew
  have hrl0 : rl0 = { ips := fun _ => none, limit := limit, interval := interval } := by
    simp only [NewIPRateLimiter, hlim, if_false] at hnew
    cases hnew
    rfl
  subst hrl0
  obtain ⟨h1, h2, h3⟩ := run_counts_bounded calls
    { ips := fun _ => none, limit := limit, interval := interval }
    (not_lt.mp hlim) (fun ip e he => by cases he)
  refine ⟨h3, fun c ip e he => ?_⟩
  have := step_entry _ c ip e he
  rw [h2] at this
  exact this

/-- C13 on the limiter of the test suite after two admissions of `192.168.1.1`,
a sweep and an admission of another source. -/
theorem reachable_counts_bounded_witness :
    (sampleLimiter.run mixedCalls).ips "192.168.1.1" = some { Count := 2, LastReset := 0 } ∧
      (1 : Int) ≤ 2 ∧ (2 : Int) ≤ 5 :=
  ⟨by decide,
    (reachable_counts_bounded 5 2000000000 sampleLimiter rfl mixedCalls).1
      "192.168.1.1" { Count := 2, LastReset := 0 } (by decide)⟩

end ratelimit

namespace ratelimit

/-- For a non-negative interval, a stale window is really older than the
interval: the saturation of `Time.Sub` does not matter. -/
theorem Sub_gt_of_nonneg (t w : Time) (I : Duration) (hI : 0 ≤ I)
    (h : Time.Sub t w > I) : t - w > I := by
  unfold Time.Sub minDuration maxDuration at h
  split_ifs at h <;> linarith

/-- Unfolding of the count at the first call. -/
theorem admittedIn_cons (s : String) (lo hi : Time) (rl : IPRateLimiter)
    (c : Time × String) (cs : List (Time × String)) :
    admittedIn s lo hi rl (c :: cs) =
      (if c.2 = s ∧ (rl.Allow c.1 c.2).1 = true ∧ lo ≤ c.1 ∧ c.1 ≤ hi then 1 else 0)
        + admittedIn s lo hi (rl.Allow c.1 c.2).2 cs :=
  rfl

/-- Calls whose readings all lie outside the span count for nothing. -/
theorem admittedIn_outside (s : String) (lo hi : Time) :
    ∀ (calls : List (Time × String)) (rl : IPRateLimiter),
      (∀ c ∈ calls, ¬ (lo ≤ c.1 ∧ c.1 ≤ hi)) → admittedIn s lo hi rl calls = 0 := by
  intro calls
  induction calls with
  | nil => intro rl _; rfl
  | cons c cs ih =>
    intro rl hout
    have hc := hout c (List.mem_cons_self c cs)
    rw [admittedIn_cons, if_neg (fun h => hc ⟨h.2.2.1, h.2.2.2⟩),
      ih _ (fun d hd => hout d (List.mem_cons_of_mem c hd))]

/-- The budget of a source is not touched by a call for another source. -/
theorem spanBudget_other (rl : IPRateLimiter) (now : Time) (ip s : String) (lo : Time)
    (hip : ip ≠ s) : spanBudget (rl.Allow now ip).2 s lo = spanBudget rl s lo := by
  unfold spanBudget
  rw [Allow_ips_other rl now ip s hip, Allow_limit]

/-- The budget is never negative. -/
theorem spanBudget_nonneg (rl : IPRateLimiter) (s : String) (lo : Time)
    (hL : 1 ≤ rl.limit) : 0 ≤ spanBudget rl s lo := by
  unfold spanBudget
  cases rl.ips s with
  | none => dsimp only; omega
  | some e => dsimp only; split_ifs <;> omega

end ratelimit

namespace ratelimit

/-- What a call `Allow(s)` at a reading `now ≥ lo` does to the budget of `s`: the
call is refused and the budget stays, or the budget pays for the call, or the
call resets a window that was opened at or after `lo`. -/
theorem spanBudget_own (rl : IPRateLimiter) (now : Time) (s : String) (lo : Time)
    (hL : 1 ≤ rl.limit) (hlo : lo ≤ now) :
    ((rl.Allow now s).1 = false ∧ spanBudget (rl.Allow now s).2 s lo = spanBudget rl s lo) ∨
    (spanBudget (rl.Allow now s).2 s lo + 1 ≤ spanBudget rl s lo) ∨
    (∃ e, rl.ips s = some e ∧ lo ≤ e.LastReset ∧ Time.Sub now e.LastReset > rl.interval) := by
  have hself := Allow_ips_self rl now s
  have hverd := Allow_verdict rl now s
  cases hs : rl.ips s with
  | none =>
    rw [hs] at hself
    refine Or.inr (Or.inl ?_)
    unfold spanBudget
    rw [hself, hs, Allow_limit]
    simp only [hlo, if_true]
    omega
  | some e =>
    rw [hs] at hself hverd
    dsimp only at hself hverd
    by_cases hstale : Time.Sub now e.LastReset > rl.interval
    · by_cases hw : lo ≤ e.LastReset
      · exact Or.inr (Or.inr ⟨e, rfl, hw, hstale⟩)
      · refine Or.inr (Or.inl ?_)
        simp only [hstale, if_true] at hself
        unfold spanBudget
        rw [hself, hs, Allow_limit]
        simp only [hlo, hw, if_true, if_false]
        omega
    · simp only [hstale, if_false] at hself hverd
      by_cases hfull : e.Count ≥ rl.limit
      · simp only [hfull, if_true] at hself hverd
        refine Or.inl ⟨hverd, ?_⟩
        unfold spanBudget
        rw [hself, hs, Allow_limit]
      · simp only [hfull, if_false] at hself
        refine Or.inr (Or.inl ?_)
        have hroom : e.Count < rl.limit := not_le.mp hfull
        unfold spanBudget
        rw [hself, hs, Allow_limit]
        dsimp only
        split_ifs <;> omega

/-- Once the clock has reached the start `lo` of a span no longer than the
interval, the admissions of `s` inside the span that are still to come are
bounded by the budget. -/
theorem admittedIn_le_budget (s : String) (lo hi : Time) :
    ∀ (calls : List (Time × String)) (rl : IPRateLimiter),
      1 ≤ rl.limit → 0 ≤ rl.interval → hi ≤ lo + rl.interval →
      (∀ c ∈ calls, lo ≤ c.1) →
      calls.Pairwise (fun c d => c.1 ≤ d.1) →
      (admittedIn s lo hi rl calls : Int) ≤ spanBudget rl s lo := by
  intro calls
  induction calls with
  | nil =>
    intro rl hL _ _ _ _
    simpa [admittedIn] using spanBudget_nonneg rl s lo hL
  | cons c cs ih =>
    intro rl hL hI hhi hlo hmono
    obtain ⟨hhead, htail⟩ := List.pairwise_cons.mp hmono
    have hlim : (rl.Allow c.1 c.2).2.limit = rl.limit := Allow_limit rl c.1 c.2
    have hint : (rl.Allow c.1 c.2).2.interval = rl.interval := Allow_interval rl c.1 c.2
    have ih2 := ih (rl.Allow c.1 c.2).2 (by rw [hlim]; exact hL) (by rw [hint]; exact hI)
      (by rw [hint]; exact hhi) (fun d hd => hlo d (List.mem_cons_of_mem c hd)) htail
    have hnow : lo ≤ c.1 := hlo c (List.mem_cons_self c cs)
    rw [admittedIn_cons]
    push_cast
    by_cases hip : c.2 = s
    · rcases spanBudget_own rl c.1 s lo hL hnow with ⟨hrej, hsame⟩ | hpay | ⟨e, he, hw, hstale⟩
      · rw [hip] at ih2 ⊢
        rw [hsame] at ih2
        rw [if_neg (fun h => by rw [hrej] at h; exact Bool.noConfusion h.2.1)]
        simpa using ih2
      · rw [hip] at ih2 ⊢
        split_ifs <;> omega
      · have hafter : hi < c.1 := by
          have := Sub_gt_of_nonneg c.1 e.LastReset rl.interval hI hstale
          linarith
        have hzero : admittedIn s lo hi rl (c :: cs) = 0 :=
          admittedIn_outside s lo hi (c :: cs) rl (fun d hd hin => by
            rcases List.mem_cons.mp hd with rfl | hd
            · exact absurd hin.2 (not_le.mpr hafter)
            · exact absurd hin.2 (not_le.mpr (lt_of_lt_of_le hafter (hhead d hd))))
        rw [admittedIn_cons] at hzero
        have hnn := spanBudget_nonneg rl s lo hL
        have hz : ((((if c.2 = s ∧ (rl.Allow c.1 c.2).1 = true ∧ lo ≤ c.1 ∧ c.1 ≤ hi
            then 1 else 0) + admittedIn s lo hi (rl.Allow c.1 c.2).2 cs : Nat) : Int)) = 0 := by
          rw [hzero]; rfl
        push_cast at hz
        rw [hz]
        exact hnn
    · rw [if_neg (fun h => hip h.1)]
      rw [spanBudget_other rl c.1 c.2 s lo hip] at ih2
      simpa using ih2

end ratelimit

namespace ratelimit

/-- `Allow` keeps the count of an entry at 1 or more. -/
theorem Allow_count_pos (rl : IPRateLimiter) (now : Time) (ip s : String)
    (hinv : ∀ e, rl.ips s = some e → 1 ≤ e.Count) :
    ∀ e, (rl.Allow now ip).2.ips s = some e → 1 ≤ e.Count := by
  intro e he
  by_cases hip : ip = s
  · subst hip
    rw [Allow_ips_self] at he
    cases hs : rl.ips ip with
    | none =>
      rw [hs] at he
      cases he
      exact le_refl 1
    | some old =>
      rw [hs] at he
      have hold := hinv old hs
      dsimp only at he
      split_ifs at he
      · cases he; exact le_refl 1
      · cases he; exact hold
      · cases he
        show (1 : Int) ≤ old.Count + 1
        omega
  · rw [Allow_ips_other rl now ip s hip] at he
    exact hinv e he

/-- With counts of 1 or more the budget is at most `2 * limit - 1`. -/
theorem spanBudget_le (rl : IPRateLimiter) (s : String) (lo : Time) (hL : 1 ≤ rl.limit)
    (hinv : ∀ e, rl.ips s = some e → 1 ≤ e.Count) :
    spanBudget rl s lo ≤ 2 * rl.limit - 1 := by
  unfold spanBudget
  cases hs : rl.ips s with
  | none => dsimp only; omega
  | some e =>
    have := hinv e hs
    dsimp only
    split_ifs <;> omega

/-- At most `2 * limit - 1` admissions of `s` fall inside a span that is no longer
than a non-negative interval, whenever the readings are non-decreasing and the
entry of `s`, if any, has a count of 1 or more. -/
theorem admittedIn_le_two_windows (s : String) (lo hi : Time) :
    ∀ (calls : List (Time × String)) (rl : IPRateLimiter),
      1 ≤ rl.limit → 0 ≤ rl.interval → hi ≤ lo + rl.interval →
      (∀ e, rl.ips s = some e → 1 ≤ e.Count) →
      calls.Pairwise (fun c d => c.1 ≤ d.1) →
      (admittedIn s lo hi rl calls : Int) ≤ 2 * rl.limit - 1 := by
  intro calls
  induction calls with
  | nil =>
    intro rl hL _ _ _ _
    simp only [admittedIn, Nat.cast_zero]
    omega
  | cons c cs ih =>
    intro rl hL hI hhi hinv hmono
    obtain ⟨hhead, htail⟩ := List.pairwise_cons.mp hmono
    by_cases hnow : lo ≤ c.1
    · have hall : ∀ d ∈ c :: cs, lo ≤ d.1 := by
        intro d hd
        rcases List.mem_cons.mp hd with rfl | hd
        · exact hnow
        · exact le_trans hnow (hhead d hd)
      exact le_trans (admittedIn_le_budget s lo hi (c :: cs) rl hL hI hhi hall hmono)
        (spanBudget_le rl s lo hL hinv)
    · have hlim : (rl.Allow c.1 c.2).2.limit = rl.limit := Allow_limit rl c.1 c.2
      have hint : (rl.Allow c.1 c.2).2.interval = rl.interval := Allow_interval rl c.1 c.2
      have ih2 := ih (rl.Allow c.1 c.2).2 (by rw [hlim]; exact hL) (by rw [hint]; exact hI)
        (by rw [hint]; exact hhi) (Allow_count_pos rl c.1 c.2 s hinv) htail
      rw [hlim] at ih2
      rw [admittedIn_cons, if_neg (fun h => hnow h.2.2.1)]
      simpa using ih2

/-- C12 fails as stated: on the limiter of the test suite (limit 5, interval two
seconds) the ten calls around the window boundary have non-decreasing readings,
and nine of them are admitted inside the span of length two seconds that starts
at the reading 2 s. -/
theorem Allow_burst_at_window_boundary :
    burstCalls.Pairwise (fun c d => c.1 ≤ d.1) ∧
      admittedIn "192.168.1.1" 2000000000 (2000000000 + sampleLimiter.interval)
        sampleLimiter burstCalls = 9 ∧
      ¬ ((admittedIn "192.168.1.1" 2000000000 (2000000000 + sampleLimiter.interval)
        sampleLimiter burstCalls : Int) ≤ sampleLimiter.limit) := by
  decide

/-- C12 amended: for a limiter with limit `L ≥ 1` in which the entry of the
source, if there is one, has a count of 1 or more (as in every reachable state),
and every sequence of `Allow` calls with non-decreasing clock readings, the
number of admitted calls for that source whose readings lie within a span of
length `interval`, wherever it starts, is at most `2 * L - 1`. -/
theorem admitted_in_span_le (rl : IPRateLimiter) (s : String)
    (calls : List (Time × String)) (lo : Time)
    (hL : 1 ≤ rl.limit) (hinv : ∀ e, rl.ips s = some e → 1 ≤ e.Count)
    (hmono : calls.Pairwise (fun c d => c.1 ≤ d.1)) :
    (admittedIn s lo (lo + rl.interval) rl calls : Int) ≤ 2 * rl.limit - 1 := by
  by_cases hI : 0 ≤ rl.interval
  · exact admittedIn_le_two_windows s lo (lo + rl.interval) calls rl hL hI (le_refl _)
      hinv hmono
  · have hempty : admittedIn s lo (lo + rl.interval) rl calls = 0 :=
      admittedIn_outside s lo (lo + rl.interval) calls rl (fun c _ hin => by
        have h1 := hin.1
        have h2 := hin.2
        have h3 : rl.interval < 0 := not_le.mp hI
        linarith)
    rw [hempty]
    simp only [Nat.cast_zero]
    omega

/-- C12 amended, at the burst around the window boundary: nine admissions, which
is `2 * 5 - 1`. -/
theorem admitted_in_span_le_witness :
    (admittedIn "192.168.1.1" 2000000000 (2000000000 + sampleLimiter.interval)
      sampleLimiter burstCalls : Int) ≤ 2 * sampleLimiter.limit - 1 :=
  admitted_in_span_le sampleLimiter "192.168.1.1" burstCalls 2000000000 (by decide)
    (fun e he => by simp [sampleLimiter] at he) (by decide)

end ratelimit

namespace executor

open context model

/-- Whenever `ExecuteTask` returns, `ExecutedAt` is the reading of the clock on
entry, in whole seconds since the epoch. -/
theorem ExecuteTask_executed_at (msgs : constant.Messages) (w : World) (ctx : Context)
    (request : TaskRequest) (out : Outcome)
    (h : ExecuteTask msgs w ctx request = Except.ok out) :
    out.result.ExecutedAt = unixSeconds w.startAt := by
  unfold ExecuteTask at h
  cases hc : request.Command with
  | none =>
    rw [hc] at h
    cases h
    rfl
  | some cmd =>
    cases cmd with
    | nil => rw [hc] at h; cases h
    | cons name args =>
      rw [hc] at h
      dsimp only at h
      cases h
      split_ifs
      · rfl
      · cases (w.spawn ctx name args).err <;> rfl

/-- The duration `ExecuteTask` reports when a process was run: the time from the
start of the second in which the call started to the reading taken at the end of
the call. -/
theorem ExecuteTask_duration (msgs : constant.Messages) (w : World) (ctx : Context)
    (request : TaskRequest) (name : String) (args : List String)
    (hcmd : request.Command = some (name :: args)) :
    ∃ out, ExecuteTask msgs w ctx request = Except.ok out ∧
      out.result.DurationMs = calculateDuration w.endAt (unixSeconds w.startAt) := by
  refine ⟨_, by simp only [ExecuteTask, hcmd]; rfl, ?_⟩
  dsimp only
  split_ifs
  · rfl
  · cases (w.spawn ctx name args).err <;> rfl

/-- C11, the code at the failing inputs.  A call that starts 0.9 s into a second
and ends 100 ms later reports the right `ExecutedAt` (second 1) but a duration of
1000 ms, the time since the start of that second; and for the nil command the
call returns before the duration is computed and reports 0 ms. -/
theorem ExecuteTask_duration_from_whole_second :
    (∃ out, ExecuteTask constant.sampleMessages lateStartWorld
        { cancelAt := none, deadline := none }
        { Command := some ["printer"], Timeout := 0 } = Except.ok out ∧
      out.result.ExecutedAt = 1 ∧
      out.result.DurationMs = 1000 ∧
      ((lateStartWorld.endAt - lateStartWorld.startAt : Int) : ℚ) / 1000000 = 100) ∧
    (∃ out, ExecuteTask constant.sampleMessages lateStartWorld
        { cancelAt := none, deadline := none }
        { Command := none, Timeout := 0 } = Except.ok out ∧
      out.result.DurationMs = 0 ∧
      ((lateStartWorld.endAt - lateStartWorld.startAt : Int) : ℚ) / 1000000 = 100) := by
  have helapsed :
      ((lateStartWorld.endAt - lateStartWorld.startAt : Int) : ℚ) / 1000000 = 100 := by
    have h : lateStartWorld.endAt - lateStartWorld.startAt = 100000000 := by decide
    rw [h]
    norm_num
  refine ⟨⟨_, rfl, by decide, ?_, helapsed⟩, ⟨_, rfl, rfl, helapsed⟩⟩
  show calculateDuration lateStartWorld.endAt (unixSeconds lateStartWorld.startAt) = 1000
  have h : Time.Sub lateStartWorld.endAt (unixSeconds lateStartWorld.startAt * 1000000000)
      = 1000000000 := by decide
  unfold calculateDuration
  rw [h]
  norm_num

end executor

namespace server

open context model executor

/-- C15 fails as stated: when nothing arrives until the read deadline fires, the
handler writes the text of the read error to the connection before closing it. -/
theorem handleConnection_writes_read_error :
    handleConnection sampleServer sampleJson background idleConn =
      [ Event.Allow "192.168.1.1",
        Event.SetReadDeadline 3000000000,
        Event.Scan,
        Event.Log
          "Error reading from connection: read tcp 10.0.0.1:3000->192.168.1.1:50000: i/o timeout",
        Event.Write "read tcp 10.0.0.1:3000->192.168.1.1:50000: i/o timeout",
        Event.Done, Event.Close ] ∧
    ¬ (written (handleConnection sampleServer sampleJson background idleConn) = []) := by
  decide

/-- C15 amended.  When a read ends because the peer closed the stream
(`scanner.Err()` is nil), the handler writes nothing, does not invoke the executor
and closes the connection.  When a read ends with an error, as when the read
deadline fired before any byte of a record arrived, the handler writes the text
of that error to the connection and nothing else, does not invoke the executor,
and closes the connection.  `ctx` and `cancels` are the state of the loop at that
read. -/
theorem serve_read_end (s : TCPServer) (json : Json) (ctx : Context) (cancels : Nat)
    (r : Round) (rs : List Round)
    (hlive : ctx.Err r.headAt = none) (harm : r.readDeadline = none) :
    (r.scan = ScanResult.stop none →
      serve s json ctx cancels (r :: rs) =
        [Event.SetReadDeadline s.readTimeout, Event.Scan] ++ leave cancels ∧
      written (serve s json ctx cancels (r :: rs)) = [] ∧
      executed (serve s json ctx cancels (r :: rs)) = [] ∧
      (serve s json ctx cancels (r :: rs)).getLast? = some Event.Close) ∧
    (∀ err, r.scan = ScanResult.stop (some err) →
      serve s json ctx cancels (r :: rs) =
        [ Event.SetReadDeadline s.readTimeout, Event.Scan,
          Event.Log ("Error reading from connection: " ++ err),
          Event.Write err ] ++ leave cancels ∧
      written (serve s json ctx cancels (r :: rs)) = [err] ∧
      executed (serve s json ctx cancels (r :: rs)) = [] ∧
      (serve s json ctx cancels (r :: rs)).getLast? = some Event.Close) := by
  constructor
  · intro hscan
    have htrace : serve s json ctx cancels (r :: rs) =
        [Event.SetReadDeadline s.readTimeout, Event.Scan] ++ leave cancels := by
      simp [serve, hlive, harm, hscan]
    refine ⟨htrace, ?_, ?_, ?_⟩
    · rw [htrace]; simp [written, written_leave]
    · rw [htrace]; simp [executed, executed_leave]
    · rw [htrace, List.getLast?_append, getLast_leave]; rfl
  · intro err hscan
    have htrace : serve s json ctx cancels (r :: rs) =
        [ Event.SetReadDeadline s.readTimeout, Event.Scan,
          Event.Log ("Error reading from connection: " ++ err),
          Event.Write err ] ++ leave cancels := by
      simp [serve, hlive, harm, hscan]
    refine ⟨htrace, ?_, ?_, ?_⟩
    · rw [htrace]; simp [written, written_leave]
    · rw [htrace]; simp [executed, executed_leave]
    · rw [htrace, List.getLast?_append, getLast_leave]; rfl

/-- C15 amended, at the connection whose peer closes without sending anything. -/
theorem serve_read_end_witness :
    serve sampleServer sampleJson background 0 closedConn.rounds =
      [Event.SetReadDeadline 3000000000, Event.Scan, Event.Done, Event.Close] :=
  ((serve_read_end sampleServer sampleJson background 0
    { headAt := 0, readDeadline := none, scan := ScanResult.stop none,
      armAt := 0, writeDeadline := none, write := none } [] rfl rfl).1 rfl).1

end server

end TcpServer
